import Mathlib

/-!
Verification of the JWT-validation gateway of `mcp-forge-python`.

The definitions below are a shallow embedding of
`src/mcp_app/middlewares/jwt_validation.py` and `src/mcp_app/context.py`:
pure Python functions become Lean functions, the mutable middleware state
(rate-limit counters, JWKS cache) is threaded explicitly, and calls into
the PyJWT / requests libraries are represented by explicit outcome values
(an oracle record), since those libraries are not part of this repository.
Time is modelled as a natural number passed explicitly.
-/

namespace McpForge

/-- A JSON value as it appears in a decoded JWT payload.  Only the carriers
the gateway ever inspects are distinguished: strings (compared by the
condition evaluator), arrays of strings (e.g. `roles`), integers, and
null. -/
inductive JVal where
  | str (s : String)
  | arr (xs : List String)
  | num (n : Int)
  | null
deriving DecidableEq, Repr

/-- A decoded JWT payload: the association list of claims, in insertion
order (Python `dict` preserves insertion order). -/
abbrev Payload := List (String × JVal)

/-- Python `payload.get(key)` on a dict: the value of the first matching
key, if any (our payloads have distinct keys, as Python dicts do). -/
def payloadGet (p : Payload) (k : String) : Option JVal :=
  p.lookup k

/-! ### Character-list string helpers

Python string operations used by `_check_condition` and `_is_uri_allowed`,
embedded on `List Char` so that everything reduces in the kernel. -/

/-- Python `sep in s` together with `s.split(sep, 1)`: the text before the
first occurrence of `sep` and the text after it, or `none` when `sep` does
not occur in `s`. -/
def splitFirst (sep : List Char) : List Char → Option (List Char × List Char)
  | [] => none
  | c :: rest =>
    if sep.isPrefixOf (c :: rest) then
      some ([], (c :: rest).drop sep.length)
    else
      match splitFirst sep rest with
      | some (pre, post) => some (c :: pre, post)
      | none => none

/-- Python `str.strip()` (whitespace on both ends). -/
def stripWs (s : List Char) : List Char :=
  ((s.dropWhile Char.isWhitespace).reverse.dropWhile Char.isWhitespace).reverse

/-- Python `str.strip(c)` for a single character `c`: remove every leading
and trailing occurrence of `c`. -/
def stripChar (c : Char) (s : List Char) : List Char :=
  ((s.dropWhile (· == c)).reverse.dropWhile (· == c)).reverse

/-- Python `str.rstrip(c)` for a single character `c`. -/
def rstripChar (c : Char) (s : List Char) : List Char :=
  (s.reverse.dropWhile (· == c)).reverse

/-- Python `str.startswith(prefix)`. -/
def startsWithL (pre s : List Char) : Bool :=
  pre.isPrefixOf s

/-- Python `str.endswith(suffix)`. -/
def endsWithL (suf s : List Char) : Bool :=
  suf.isSuffixOf s

/-! ### Condition evaluator (`JWTValidationMiddleware._check_condition`) -/

/-- The module constant `ENDSWITH_PARTS_COUNT = 2`. -/
def ENDSWITH_PARTS_COUNT : Nat := 2

/-- Python `payload.get(key) == value` where `value` is a `str`: true only
when the claim is present and is a string equal to `value` (`None` and
non-string JSON values never equal a Python string). -/
def payloadEqStr (p : Payload) (key : List Char) (value : List Char) : Bool :=
  match payloadGet p (String.mk key) with
  | some (JVal.str s) => s.data == value
  | _ => false

/-- Python `isinstance(field_value, str) and field_value.endswith(suffix)`
on `field_value = payload.get(key)` (jwt_validation.py lines 283-284). -/
def payloadEndsStr (p : Payload) (key : List Char) (suffix : List Char) : Bool :=
  match payloadGet p (String.mk key) with
  | some (JVal.str s) => endsWithL suffix s.data
  | _ => false

/-- Transcription of `JWTValidationMiddleware._check_condition(condition, payload)`
(jwt_validation.py lines 265-287), transcribed branch by branch.  The
Python logging call carries no return value and is dropped; every fall-
through path returns `False`. -/
def check_condition (condition : String) (payload : Payload) : Bool :=
  let cond := condition.data
  match splitFirst (" == ".data) cond with
  | some (f, v) =>
    let field := stripWs f
    let value := stripChar '\'' (stripChar '"' (stripWs v))
    if startsWithL ("payload.".data) field then
      payloadEqStr payload (field.drop 8) value
    else if startsWithL ("payload_['".data) field && endsWithL ("']".data) field then
      payloadEqStr payload ((field.drop 10).dropLast.dropLast) value
    else
      false
  | none =>
    match splitFirst (".endswith(".data) cond with
    | some (p0, p1) =>
      if endsWithL (")".data) cond then
        -- `condition.split(".endswith(", 1)` always yields two parts here,
        -- so `len(parts) == ENDSWITH_PARTS_COUNT` holds.
        if startsWithL ("payload.".data) p0 then
          let key := p0.drop 8
          let suffix := stripChar '\'' (stripChar '"' (rstripChar ')' p1))
          payloadEndsStr payload key suffix
        else false
      else false
    | none => false

/-! ### Claim filtering and context (`context.py`) -/

/-- Configuration field `JWTContextConfig.exposed_claims : str | list[str]`. -/
inductive ExposedClaimsCfg where
  | strCfg (s : String)
  | listCfg (names : List String)
deriving DecidableEq, Repr

/-- The claims `filter_payload` always retains (`always_include = {"roles",
"scope"}`, context.py line 53). -/
def always_include : List String := ["roles", "scope"]

/-- Function `filter_payload(payload)` (context.py lines 39-60), with the
configuration passed explicitly.  The `"all"` branch and the misconfigured-
string fallback both return the payload unchanged; a list configuration
keeps exactly the entries whose key is listed or always included (the dict
comprehension preserves order, as `List.filter` does). -/
def filter_payload (cfg : ExposedClaimsCfg) (payload : Payload) : Payload :=
  match cfg with
  | .strCfg _ => payload
  | .listCfg names =>
    payload.filter (fun kv => (names ++ always_include).contains kv.1)

/-- The per-request claim context (`jwt_token` / `jwt_payload` context
variables): `none` until `set_jwt_context` runs, then the token together
with the filtered payload. -/
abbrev JwtContext := Option (String × Payload)

/-- Function `set_jwt_context(token, payload)` (context.py lines 63-73). -/
def set_jwt_context (cfg : ExposedClaimsCfg) (token : String) (payload : Payload) :
    JwtContext :=
  some (token, filter_payload cfg payload)

/-! ### JWKS cache (`JWKSCache`, jwt_validation.py lines 30-57)

Network fetches are not repo code; a fetch's outcome is passed in
explicitly.  `requests.get` + `raise_for_status` + `json()` either produce
a parsed document (whose `keys` entry is a list of JWK objects) or raise,
and `_refresh_keys` catches every exception. -/

/-- A JWK entry of the fetched document.  The gateway reads only `kid`
(cache key) and, per the spec's description of signing keys, the declared
`alg`; other members are irrelevant to the claims and omitted. -/
structure Jwk where
  kid : Option String
  alg : Option String
deriving DecidableEq, Repr

/-- Outcome of one `requests.get(self.uri, timeout=10)` round-trip:
either the parsed `jwks.get("keys", [])` list, or any raised exception
(connection error, timeout, non-2xx status, JSON parse failure). -/
inductive FetchResult where
  | ok (doc : List Jwk)
  | failure
deriving DecidableEq, Repr

/-- Insert-or-overwrite into an association list, keeping first-insertion
order (Python dict semantics). -/
def dictInsert (m : List (String × Jwk)) (k : String) (v : Jwk) :
    List (String × Jwk) :=
  match m with
  | [] => [(k, v)]
  | (k', v') :: rest =>
    if k' = k then (k', v) :: rest else (k', v') :: dictInsert rest k v

/-- The dict comprehension of `_refresh_keys` (line 53): index by `kid`
those entries that carry one; later duplicates overwrite earlier ones. -/
def buildKeys (doc : List Jwk) : List (String × Jwk) :=
  doc.foldl (fun m k =>
    match k.kid with
    | some kid => dictInsert m kid k
    | none => m) []

/-- The mutable fields of a `JWKSCache` (the `uri` never changes and is
irrelevant here). -/
structure JWKSCacheState where
  keys : List (String × Jwk)
  last_updated : Nat
  cache_interval : Nat
deriving DecidableEq, Repr

/-- Method `JWKSCache._refresh_keys` (lines 47-57): on success replace the mapping
wholesale and stamp the fetch time; on any exception log and leave every
field unchanged (the exception never escapes). -/
def refresh_keys (st : JWKSCacheState) (fetch : FetchResult) (now : Nat) :
    JWKSCacheState :=
  match fetch with
  | .ok doc => { st with keys := buildKeys doc, last_updated := now }
  | .failure => st

/-- Method `JWKSCache.get_key(kid)` (lines 40-45).  Returns the looked-up key, the
cache state afterwards, and how many network fetches the call performed.
The function is total: no exception reaches the caller. -/
def get_key (st : JWKSCacheState) (now : Nat) (fetch : FetchResult) (kid : String) :
    Option Jwk × JWKSCacheState × Nat :=
  if now - st.last_updated > st.cache_interval then
    let st' := refresh_keys st fetch now
    (st'.keys.lookup kid, st', 1)
  else
    (st.keys.lookup kid, st, 0)

/-- A sequence of `get_key` calls, accumulating the fetch count. -/
def get_key_seq (st : JWKSCacheState) :
    List (Nat × FetchResult × String) → JWKSCacheState × Nat
  | [] => (st, 0)
  | (now, fetch, kid) :: rest =>
    let r := get_key st now fetch kid
    let s := get_key_seq r.2.1 rest
    (s.1, r.2.2 + s.2)

/-! ### Rate limiter (jwt_validation.py lines 123-133) -/

/-- The module constant `MAX_RATE_LIMIT_REQUESTS = 10`. -/
def MAX_RATE_LIMIT_REQUESTS : Nat := 10

/-- The `self.rate_limit` dict: per-client-address attempt counters. -/
abbrev RateMap := List (String × Nat)

/-- Insert-or-overwrite for the rate-limit dict. -/
def rateInsert (m : RateMap) (k : String) (v : Nat) : RateMap :=
  match m with
  | [] => [(k, v)]
  | (k', v') :: rest =>
    if k' = k then (k', v) :: rest else (k', v') :: rateInsert rest k v

/-- The rate-limiting prologue of `_validate_local`: reject (HTTP 429)
when the stored counter already exceeds `MAX_RATE_LIMIT_REQUESTS`,
otherwise increment the counter and continue.  Returns whether the attempt
is allowed, plus the updated map (unchanged on rejection — the increment
line is never reached past the `raise`). -/
def rateCheck (m : RateMap) (client_ip : String) : Bool × RateMap :=
  let cnt := (m.lookup client_ip).getD 0
  if cnt > MAX_RATE_LIMIT_REQUESTS then
    (false, m)
  else
    (true, rateInsert m client_ip (cnt + 1))

/-- The rate-limit map after `n` successive validation attempts from one
address, starting empty. -/
def rateStateAfter (ip : String) : Nat → RateMap
  | 0 => []
  | n + 1 => (rateCheck (rateStateAfter ip n) ip).2

/-- Whether the `n`-th attempt (1-based) from a single address, starting
from an empty map, is allowed past the rate check. -/
def nthAttemptAllowed (ip : String) (n : Nat) : Bool :=
  (rateCheck (rateStateAfter ip (n - 1)) ip).1

/-! ### Domain allow-list guard (`_is_uri_allowed`, jwt_validation.py
lines 92-98; the identical method in handlers.py lines 26-32) -/

/-- Model of `urllib.parse.urlparse(uri).netloc` for the absolute URIs the
guard receives (`scheme://host[/path...]`): the text between the first
`"://"` and the following `/`, `?` or `#`; empty when the URI has no
`"://"` (no netloc). -/
def netloc (uri : String) : List Char :=
  match splitFirst ("://".data) uri.data with
  | some (_, rest) => rest.takeWhile (fun c => !(c = '/' || c = '?' || c = '#'))
  | none => []

/-- Method `_is_uri_allowed(uri)`: allow everything when the whitelist is empty,
otherwise allow iff the URI's netloc ends with one of the configured
suffixes. -/
def is_uri_allowed (whitelist_domains : List String) (uri : String) : Bool :=
  if whitelist_domains.isEmpty then
    true
  else
    whitelist_domains.any (fun allowed => endsWithL allowed.data (netloc uri))

/-! ### The verification call (`jwt.decode`, jwt_validation.py lines
214-222) and the validation pipeline (`_validate_local`, lines 121-263)

PyJWT is a library, not repo code, so its calls are represented by their
argument records and by abstract outcomes supplied through an oracle. -/

/-- The argument record of the `jwt.decode` call in `_validate_local`
(lines 215-222): token, resolved key, the literal `algorithms=["RS256"]`,
and the configured audience and issuer. -/
structure DecodeCall where
  token : String
  keyData : Jwk
  algorithms : List String
  audience : Option String
  issuer : Option String
deriving DecidableEq, Repr

/-- Builds the `jwt.decode` argument record exactly as `_validate_local`
does: the `algorithms` argument is the literal list `["RS256"]`. -/
def mkDecodeCall (token : String) (keyData : Jwk)
    (audience issuer : Option String) : DecodeCall :=
  { token := token, keyData := keyData, algorithms := ["RS256"],
    audience := audience, issuer := issuer }

/-- Modelled from the spec: PyJWT's documented contract that `jwt.decode`
rejects any token whose signing algorithm is not a member of the
`algorithms` argument; acceptance under algorithm `a` requires
`a ∈ call.algorithms`.  (PyJWT itself is a library dependency, not source
of this repository.) -/
def acceptsUnderAlg (call : DecodeCall) (a : String) : Bool :=
  call.algorithms.contains a

/-- Outcome of the `jwt.decode` call: signature, expiry, issuer and
audience verification either fail (`ExpiredSignatureError` /
`InvalidTokenError`) or produce the decoded payload. -/
inductive DecodeOutcome where
  | expired
  | invalid
  | ok (payload : Payload)
deriving DecidableEq, Repr

/-- Outcomes of the PyJWT library calls made by `_validate_local`, one
request at a time:
* `header kid?` — `jwt.get_unverified_header(token)` parsed, and
  `header.get("kid")` gave `kid?`; `headerError` — a `PyJWTError`;
* `jwkOk` — whether `jwt.PyJWK(key_data)` constructs without raising;
* `decodeRun` — the outcome of `jwt.decode` on the given argument record. -/
structure CryptoOracle where
  headerOutcome : String → Option (Option String)
  jwkOk : Jwk → Bool
  decodeRun : DecodeCall → DecodeOutcome

/-- The configuration fields of `JWTValidationMiddleware` the pipeline
reads, plus the process-wide exposed-claims policy of `context.py`. -/
structure MwConfig where
  strategy : String
  allow_conditions : List String
  issuer : Option String
  audience : Option String
  exposed_claims : ExposedClaimsCfg

/-- The request data `_validate_local` consumes.  `client_ip` is already
`request.client.host if request.client else "unknown"`; `auth_header` is
`request.headers.get("Authorization")`. -/
structure Request where
  method : String
  path : String
  client_ip : String
  auth_header : Option String
deriving DecidableEq, Repr

/-- The mutable middleware state threaded through a request: the
rate-limit map and the JWKS cache (`None` when no `jwks_uri` was
configured). -/
structure MwState where
  rate_limit : RateMap
  jwks : Option JWKSCacheState
deriving DecidableEq, Repr

/-- Result of `_validate_local`: either an `HTTPException` (status code and
detail) or normal return.  The claim context is reported separately. -/
inductive LocalResult where
  | error (statusCode : Nat) (detail : String)
  | success
deriving DecidableEq, Repr

/-- Python truthiness of `header.get("kid")`: falsy when absent or the
empty string. -/
def kidTruthy : Option String → Bool
  | none => false
  | some s => !(s = "")

/-- Python `auth_header[7:]` — strip the `"Bearer "` prefix. -/
def tokenOfHeader (auth : String) : String :=
  String.mk (auth.data.drop 7)

/-- Method `JWTValidationMiddleware._validate_local` (lines 121-263), transcribed
stage by stage.  Returns the result, the middleware state afterwards, and
the claim context afterwards; the context starts unset (`none`, a fresh
request) and is written only by the final `set_jwt_context` line.  `now`
and `fetch` feed the JWKS cache refresh, should one happen. -/
def validate_local (ora : CryptoOracle) (cfg : MwConfig) (st : MwState)
    (req : Request) (now : Nat) (fetch : FetchResult) :
    LocalResult × MwState × JwtContext :=
  -- Simple rate limiting
  let rc := rateCheck st.rate_limit req.client_ip
  if !rc.1 then
    (.error 429 "Rate limit exceeded", st, none)
  else
    let st := { st with rate_limit := rc.2 }
    -- Authorization header extraction
    match req.auth_header with
    | none => (.error 401 "Invalid Authorization header", st, none)
    | some auth =>
      if !startsWithL ("Bearer ".data) auth.data then
        (.error 401 "Invalid Authorization header", st, none)
      else
        let token := tokenOfHeader auth
        -- Decode header to get kid
        match ora.headerOutcome token with
        | none => (.error 401 "Invalid JWT header: PyJWTError", st, none)
        | some kidOpt =>
          if !kidTruthy kidOpt then
            (.error 401 "Invalid JWT header", st, none)
          else
            let kid := kidOpt.getD ""
            -- Get key from JWKS
            match st.jwks with
            | none => (.error 401 "JWKS not configured", st, none)
            | some jwksSt =>
              let gk := get_key jwksSt now fetch kid
              let st := { st with jwks := some gk.2.1 }
              match gk.1 with
              | none => (.error 401 "Key not found in JWKS", st, none)
              | some key_data =>
                -- Convert JWK to PEM
                if !ora.jwkOk key_data then
                  (.error 401 "Invalid JWK", st, none)
                else
                  -- Verify and decode JWT
                  match ora.decodeRun
                      (mkDecodeCall token key_data cfg.audience cfg.issuer) with
                  | .expired => (.error 401 "JWT expired", st, none)
                  | .invalid => (.error 401 "Invalid JWT", st, none)
                  | .ok payload =>
                    -- Check allow conditions
                    if !(cfg.allow_conditions.all
                        (fun c => check_condition c payload)) then
                      (.error 401 "JWT does not meet conditions", st, none)
                    else
                      -- Set JWT in shared context for MCP tools
                      (.success, st, set_jwt_context cfg.exposed_claims token payload)

/-- Result of `JWTValidationMiddleware.dispatch`: either the request was
forwarded to `call_next` (with the claim context downstream code observes),
or a `JSONResponse` rejection was returned and downstream code never ran. -/
inductive DispatchResult where
  | forwarded (ctx : JwtContext)
  | rejected (statusCode : Nat) (detail : String)
deriving DecidableEq, Repr

/-- The OAuth-exempt paths of `dispatch` (line 109). -/
def exemptPaths : List String := ["/login", "/callback", "/error"]

/-- Method `JWTValidationMiddleware.dispatch` (lines 100-119): bypass for CORS
preflight and exempt paths; run `_validate_local` only when the strategy
is the string `"local"`, converting an `HTTPException` into a JSON
rejection; any other strategy forwards untouched. -/
def dispatch (ora : CryptoOracle) (cfg : MwConfig) (st : MwState)
    (req : Request) (now : Nat) (fetch : FetchResult) :
    DispatchResult × MwState :=
  if req.method = "OPTIONS" then
    (.forwarded none, st)
  else if exemptPaths.contains req.path then
    (.forwarded none, st)
  else if cfg.strategy = "local" then
    match validate_local ora cfg st req now fetch with
    | (.error code detail, st', _) => (.rejected code detail, st')
    | (.success, st', ctx) => (.forwarded ctx, st')
  else
    (.forwarded none, st)

/-! ## Theorems -/

/-- C7: Claim filtering follows the ExposedClaimsPolicy: policy `"all"`
stores the full verified payload; an explicit list stores exactly the
payload entries whose names are listed or are `"roles"`/`"scope"`; the
spec's concrete example comes out exactly as stated. -/
theorem filter_payload_policy :
    (∀ p : Payload, filter_payload (ExposedClaimsCfg.strCfg "all") p = p) ∧
    (∀ (names : List String) (p : Payload) (k : String) (v : JVal),
      (k, v) ∈ filter_payload (ExposedClaimsCfg.listCfg names) p ↔
        (k, v) ∈ p ∧ (k ∈ names ∨ k = "roles" ∨ k = "scope")) ∧
    filter_payload (ExposedClaimsCfg.listCfg ["sub", "roles"])
        [("sub", JVal.str "u1"), ("roles", JVal.arr ["admin"]),
          ("email", JVal.str "e")] =
      [("sub", JVal.str "u1"), ("roles", JVal.arr ["admin"])] := by
  refine ⟨fun p => rfl, ?_, by decide⟩
  intro names p k v
  simp [filter_payload, List.mem_filter, always_include, or_assoc]

/-- C8: the domain allow-list guard accepts a URI iff the configured
suffix set is empty or the URI's host ends with a configured suffix; the
spec's four concrete examples hold. -/
theorem is_uri_allowed_spec :
    (∀ (wl : List String) (uri : String),
      is_uri_allowed wl uri = true ↔
        wl = [] ∨ ∃ s ∈ wl, s.data <:+ netloc uri) ∧
    is_uri_allowed ["example.com"] "https://sub.example.com/x" = true ∧
    is_uri_allowed ["example.com"] "https://evil.com" = false ∧
    is_uri_allowed [] "https://sub.example.com/x" = true ∧
    is_uri_allowed [] "https://evil.com" = true := by
  refine ⟨?_, by decide, by decide, by decide, by decide⟩
  intro wl uri
  rcases hwl : wl with _ | ⟨d, ds⟩
  · simp [is_uri_allowed]
  · simp [is_uri_allowed, List.any_eq_true, endsWithL,
      List.isSuffixOf_iff_suffix]

/-- C10: the suffix match is purely textual, with no label-boundary check:
any URI whose host string ends with a configured suffix is allowed, and in
particular host `evilexample.com` passes the allow-list
`["example.com"]`. -/
theorem suffix_match_is_textual :
    (∀ (wl : List String) (uri : String) (s : String),
      s ∈ wl → s.data <:+ netloc uri → is_uri_allowed wl uri = true) ∧
    is_uri_allowed ["example.com"] "https://evilexample.com/x" = true := by
  refine ⟨?_, by decide⟩
  intro wl uri s hs hsuf
  cases wl with
  | nil => simp at hs
  | cons d ds =>
    simp only [is_uri_allowed, List.isEmpty_cons, Bool.false_eq_true,
      if_false, List.any_eq_true]
    exact ⟨s, hs, by simpa [endsWithL, List.isSuffixOf_iff_suffix] using hsuf⟩

/-- Witness for C10 at the allow-list `["example.com"]` and the host
`evilexample.com`. -/
theorem suffix_match_is_textual_witness :
    "example.com" ∈ ["example.com"] ∧
    ("example.com" : String).data <:+ netloc "https://evilexample.com/x" ∧
    is_uri_allowed ["example.com"] "https://evilexample.com/x" = true :=
  ⟨by decide, by decide,
    suffix_match_is_textual.1 ["example.com"] "https://evilexample.com/x"
      "example.com" (by decide) (by decide)⟩

/-- C5: a failed key-set fetch is swallowed: `get_key` (a total function —
`_refresh_keys` catches every exception) returns exactly the stale lookup
result, the cache mapping and timestamp are unchanged, and the refresh
timestamp moves only on a successful fetch. -/
theorem jwks_fetch_failure_swallowed :
    ∀ (st : JWKSCacheState) (now : Nat) (kid : String),
      (get_key st now FetchResult.failure kid).1 = st.keys.lookup kid ∧
      (get_key st now FetchResult.failure kid).2.1 = st ∧
      refresh_keys st FetchResult.failure now = st ∧
      (∀ doc, (refresh_keys st (FetchResult.ok doc) now).last_updated = now) := by
  intro st now kid
  refine ⟨?_, ?_, rfl, fun doc => rfl⟩
  · simp only [get_key, refresh_keys]
    split <;> rfl
  · simp only [get_key, refresh_keys]
    split <;> rfl

/-- C6: key lookups are fetch-idempotent within the TTL: a sequence of
`get_key` calls whose times all lie within the refresh interval performs
zero fetches and leaves the cache untouched; a lookup past the interval
performs exactly one fetch. -/
theorem jwks_ttl_idempotent :
    ∀ st : JWKSCacheState,
      (∀ calls : List (Nat × FetchResult × String),
        (∀ c ∈ calls, c.1 - st.last_updated ≤ st.cache_interval) →
        get_key_seq st calls = (st, 0)) ∧
      (∀ (now : Nat) (fetch : FetchResult) (kid : String),
        st.cache_interval < now - st.last_updated →
        (get_key st now fetch kid).2.2 = 1) := by
  intro st
  constructor
  · intro calls h
    induction calls with
    | nil => rfl
    | cons c rest ih =>
      obtain ⟨now, fetch, kid⟩ := c
      have hc : now - st.last_updated ≤ st.cache_interval := by
        simpa using h (now, fetch, kid) (by simp)
      have hrest := ih (fun d hd => h d (by simp [hd]))
      have hcond : ¬ st.cache_interval < now - st.last_updated := by omega
      simp only [get_key_seq, get_key, if_neg hcond]
      simp [hrest]
  · intro now fetch kid h
    simp only [get_key, if_pos h]

/-- Witness for C6: a cache stamped at time 100 with a 300-second interval
performs no fetch at time 200 and exactly one at time 1000. -/
theorem jwks_ttl_idempotent_witness :
    get_key_seq ⟨[], 100, 300⟩ [(200, FetchResult.failure, "k1"),
        (350, FetchResult.failure, "k1")] = (⟨[], 100, 300⟩, 0) ∧
    (get_key ⟨[], 100, 300⟩ 1000 FetchResult.failure "k1").2.2 = 1 :=
  ⟨(jwks_ttl_idempotent ⟨[], 100, 300⟩).1 _ (by decide),
    (jwks_ttl_idempotent ⟨[], 100, 300⟩).2 1000 FetchResult.failure "k1"
      (by decide)⟩

/-- After `n ≥ 1` attempts from one address the counter map holds exactly
`min n 11` for that address: the counter is incremented on every allowed
attempt and frozen once an attempt is rejected. -/
lemma rateStateAfter_succ (ip : String) (n : Nat) :
    rateStateAfter ip (n + 1) = [(ip, min (n + 1) 11)] := by
  induction n with
  | zero => rfl
  | succ n ih =>
    show (rateCheck (rateStateAfter ip (n + 1)) ip).2 = _
    rw [ih]
    by_cases h : n + 1 ≤ 10
    · have h1 : min (n + 1) 11 = n + 1 := by omega
      have h2 : min (n + 2) 11 = n + 2 := by omega
      rw [h1, h2]
      have hng : ¬ (n + 1 > MAX_RATE_LIMIT_REQUESTS) := by
        simp only [MAX_RATE_LIMIT_REQUESTS]; omega
      simp [rateCheck, List.lookup, rateInsert, hng]
    · have h1 : min (n + 1) 11 = 11 := by omega
      have h2 : min (n + 2) 11 = 11 := by omega
      rw [h1, h2]
      simp [rateCheck, List.lookup, MAX_RATE_LIMIT_REQUESTS]

/-- C4 counterexample: the 11th validation attempt from one address is
still accepted by the rate check (the claim says it is rejected with
429). -/
theorem rate_limit_11th_attempt_accepted :
    nthAttemptAllowed "1.2.3.4" 11 = true := by decide

/-- C4 amended: the counter must strictly exceed 10 before the check
fires, and the check precedes the increment, so for any single client
address the 10th and 11th attempts are accepted and the 12th is the first
one rejected. -/
theorem rate_limit_boundary :
    ∀ ip : String,
      nthAttemptAllowed ip 10 = true ∧
      nthAttemptAllowed ip 11 = true ∧
      nthAttemptAllowed ip 12 = false := by
  intro ip
  have h9 : rateStateAfter ip 9 = [(ip, 9)] := by
    have h := rateStateAfter_succ ip 8
    simpa [Nat.min_def] using h
  have h10 : rateStateAfter ip 10 = [(ip, 10)] := by
    have h := rateStateAfter_succ ip 9
    simpa [Nat.min_def] using h
  have h11 : rateStateAfter ip 11 = [(ip, 11)] := by
    have h := rateStateAfter_succ ip 10
    simpa [Nat.min_def] using h
  refine ⟨?_, ?_, ?_⟩
  · show (rateCheck (rateStateAfter ip 9) ip).1 = true
    rw [h9]
    simp [rateCheck, List.lookup, MAX_RATE_LIMIT_REQUESTS]
  · show (rateCheck (rateStateAfter ip 10) ip).1 = true
    rw [h10]
    simp [rateCheck, List.lookup, MAX_RATE_LIMIT_REQUESTS]
  · show (rateCheck (rateStateAfter ip 11) ip).1 = false
    rw [h11]
    simp [rateCheck, List.lookup, MAX_RATE_LIMIT_REQUESTS]

/-- C2 counterexample: for a resolved key whose declared algorithm is
`ES256`, the verification call still accepts under `RS256` — the accepted
algorithm is not the key's declared one. -/
theorem decode_algorithm_not_key_pinned :
    acceptsUnderAlg
      (mkDecodeCall "tok" ⟨some "k1", some "ES256"⟩ none none) "RS256" = true ∧
    (Jwk.alg ⟨some "k1", some "ES256"⟩ ≠ some "RS256") := by
  constructor
  · rfl
  · decide

/-- C2 amended: the verification algorithm set is pinned to the fixed
literal `["RS256"]`, independent of the resolved key's declared algorithm:
every key's decode call carries exactly that list, and a token is accepted
under algorithm `a` iff `a = "RS256"`. -/
theorem decode_algorithm_fixed_rs256 :
    ∀ (token : String) (key : Jwk) (aud iss : Option String) (a : String),
      (mkDecodeCall token key aud iss).algorithms = ["RS256"] ∧
      (acceptsUnderAlg (mkDecodeCall token key aud iss) a = true ↔
        a = "RS256") := by
  intro token key aud iss a
  refine ⟨rfl, ?_⟩
  simp [acceptsUnderAlg, mkDecodeCall, List.contains]

/-- A crypto oracle for concrete witnesses: the token header carries kid
`k1`, the JWK converts, and verification yields the payload
`{"scope": "admin"}`. -/
def witnessOracle : CryptoOracle where
  headerOutcome := fun _ => some (some "k1")
  jwkOk := fun _ => true
  decodeRun := fun _ => DecodeOutcome.ok [("scope", JVal.str "admin")]

/-- C9: for any non-exempt request, any strategy string other than
`"local"` — not only `"external"` — forwards the request with no rate
limiting, no credential checks, unchanged middleware state, and an unset
claim context. -/
theorem non_local_strategy_fail_open :
    ∀ (ora : CryptoOracle) (cfg : MwConfig) (st : MwState) (req : Request)
      (now : Nat) (fetch : FetchResult),
      req.method ≠ "OPTIONS" →
      exemptPaths.contains req.path = false →
      cfg.strategy ≠ "local" →
      dispatch ora cfg st req now fetch = (DispatchResult.forwarded none, st) := by
  intro ora cfg st req now fetch hm hp hs
  simp [dispatch, hm, hp, hs]

/-- Witness for C9: a GET to `/mcp` under the misspelled strategy
`"locall"` is forwarded untouched. -/
theorem non_local_strategy_fail_open_witness :
    ("GET" ≠ "OPTIONS") ∧
    exemptPaths.contains "/mcp" = false ∧
    ("locall" ≠ "local") ∧
    dispatch witnessOracle
        ⟨"locall", [], none, none, ExposedClaimsCfg.strCfg "all"⟩
        ⟨[], none⟩ ⟨"GET", "/mcp", "1.2.3.4", none⟩ 0 FetchResult.failure =
      (DispatchResult.forwarded none, ⟨[], none⟩) :=
  ⟨by decide, by decide, by decide,
    non_local_strategy_fail_open witnessOracle
      ⟨"locall", [], none, none, ExposedClaimsCfg.strCfg "all"⟩
      ⟨[], none⟩ ⟨"GET", "/mcp", "1.2.3.4", none⟩ 0 FetchResult.failure
      (by decide) (by decide) (by decide)⟩

/-- A request has passed every stage of the local validation pipeline:
the rate check admits the client, an `Authorization: Bearer` header is
present, the token's header parses with a non-empty `kid`, a JWKS cache is
configured and resolves the kid (after any due refresh), the JWK converts,
signature/expiry/issuer/audience verification succeeds, and every
configured allow-condition evaluates to true on the verified payload. -/
def StagesPass (ora : CryptoOracle) (cfg : MwConfig) (st : MwState)
    (req : Request) (now : Nat) (fetch : FetchResult) : Prop :=
  (rateCheck st.rate_limit req.client_ip).1 = true ∧
  ∃ auth, req.auth_header = some auth ∧
    startsWithL ("Bearer ".data) auth.data = true ∧
  ∃ kidOpt, ora.headerOutcome (tokenOfHeader auth) = some kidOpt ∧
    kidTruthy kidOpt = true ∧
  ∃ jwksSt, st.jwks = some jwksSt ∧
  ∃ key, (get_key jwksSt now fetch (kidOpt.getD "")).1 = some key ∧
    ora.jwkOk key = true ∧
  ∃ payload,
    ora.decodeRun
      (mkDecodeCall (tokenOfHeader auth) key cfg.audience cfg.issuer) =
        DecodeOutcome.ok payload ∧
    cfg.allow_conditions.all (fun c => check_condition c payload) = true

/-- C1: under strategy `"local"`, the per-request claim context is set iff
the request passed every stage; the context, when set, is exactly the
token with the policy-filtered payload; success and rejection of
`_validate_local` coincide with the context being set or unset; and
`dispatch` forwards exactly the context `_validate_local` produced, or
rejects with the raised status while the context stays unset. -/
theorem local_claim_context_iff_all_stages :
    ∀ (ora : CryptoOracle) (cfg : MwConfig) (st : MwState) (req : Request)
      (now : Nat) (fetch : FetchResult),
      req.method ≠ "OPTIONS" →
      exemptPaths.contains req.path = false →
      cfg.strategy = "local" →
      ((validate_local ora cfg st req now fetch).2.2 ≠ none ↔
        StagesPass ora cfg st req now fetch) ∧
      ((validate_local ora cfg st req now fetch).1 = LocalResult.success ↔
        (validate_local ora cfg st req now fetch).2.2 ≠ none) ∧
      (∀ auth kidOpt jwksSt key payload,
        req.auth_header = some auth →
        ora.headerOutcome (tokenOfHeader auth) = some kidOpt →
        st.jwks = some jwksSt →
        (get_key jwksSt now fetch (kidOpt.getD "")).1 = some key →
        ora.decodeRun
            (mkDecodeCall (tokenOfHeader auth) key cfg.audience cfg.issuer) =
          DecodeOutcome.ok payload →
        (validate_local ora cfg st req now fetch).1 = LocalResult.success →
        (validate_local ora cfg st req now fetch).2.2 =
          some (tokenOfHeader auth,
            filter_payload cfg.exposed_claims payload)) ∧
      (∀ code detail,
        (validate_local ora cfg st req now fetch).1 =
            LocalResult.error code detail →
        (validate_local ora cfg st req now fetch).2.2 = none ∧
        dispatch ora cfg st req now fetch =
          (DispatchResult.rejected code detail,
            (validate_local ora cfg st req now fetch).2.1)) ∧
      ((validate_local ora cfg st req now fetch).1 = LocalResult.success →
        dispatch ora cfg st req now fetch =
          (DispatchResult.forwarded (validate_local ora cfg st req now fetch).2.2,
            (validate_local ora cfg st req now fetch).2.1)) := by
  intro ora cfg st req now fetch hm hp hs
  have hp2 : req.path ∉ exemptPaths := by simpa using hp
  rcases hrc : (rateCheck st.rate_limit req.client_ip).1 with _ | _
  · simp [validate_local, dispatch, StagesPass, hrc, hm, hp2, hs]
  · rcases hauth : req.auth_header with _ | auth
    · simp [validate_local, dispatch, StagesPass, hrc, hauth, hm, hp2, hs]
    · rcases hbear : startsWithL ("Bearer ".data) auth.data with _ | _
      · simp [validate_local, dispatch, StagesPass, hrc, hauth, hbear,
          hm, hp2, hs]
      · rcases hho : ora.headerOutcome (tokenOfHeader auth) with _ | kidOpt
        · simp [validate_local, dispatch, StagesPass, hrc, hauth, hbear, hho,
            hm, hp2, hs]
        · rcases hkid : kidTruthy kidOpt with _ | _
          · simp [validate_local, dispatch, StagesPass, hrc, hauth, hbear,
              hho, hkid, hm, hp2, hs]
          · rcases hjw : st.jwks with _ | jwksSt
            · simp [validate_local, dispatch, StagesPass, hrc, hauth, hbear,
                hho, hkid, hjw, hm, hp2, hs]
            · rcases hgk : (get_key jwksSt now fetch (kidOpt.getD "")).1
                with _ | key
              · simp [validate_local, dispatch, StagesPass, hrc, hauth, hbear,
                  hho, hkid, hjw, hgk, hm, hp2, hs]
              · rcases hjo : ora.jwkOk key with _ | _
                · simp [validate_local, dispatch, StagesPass, hrc, hauth,
                    hbear, hho, hkid, hjw, hgk, hjo, hm, hp2, hs]
                · rcases hdec : ora.decodeRun
                      (mkDecodeCall (tokenOfHeader auth) key cfg.audience
                        cfg.issuer) with _ | _ | payload
                  · simp [validate_local, dispatch, StagesPass, hrc, hauth,
                      hbear, hho, hkid, hjw, hgk, hjo, hdec, hm, hp2, hs]
                  · simp [validate_local, dispatch, StagesPass, hrc, hauth,
                      hbear, hho, hkid, hjw, hgk, hjo, hdec, hm, hp2, hs]
                  · rcases hcond : cfg.allow_conditions.all
                        (fun c => check_condition c payload) with _ | _
                    · simp [validate_local, dispatch, StagesPass, hrc, hauth,
                        hbear, hho, hkid, hjw, hgk, hjo, hdec, hcond,
                        hm, hp2, hs]
                      simpa using hcond
                    · simp [validate_local, dispatch, StagesPass, hrc, hauth,
                        hbear, hho, hkid, hjw, hgk, hjo, hdec, hcond,
                        hm, hp2, hs, set_jwt_context]
                      constructor
                      · simpa using hcond
                      · rintro a1 k1 j1 ky1 p1 rfl he2 rfl he4 he5
                        rw [hho] at he2
                        injection he2 with he2
                        subst he2
                        rw [hgk] at he4
                        injection he4 with he4
                        subst he4
                        rw [hdec] at he5
                        injection he5 with he5
                        subst he5
                        exact ⟨rfl, rfl⟩

/-- A concrete local-strategy gateway configuration for witnesses. -/
def cfgLocal : MwConfig :=
  ⟨"local", ["payload.scope == \"admin\""], none, none,
    ExposedClaimsCfg.strCfg "all"⟩

/-- A concrete middleware state: empty rate map, one cached key `k1`. -/
def stLocal : MwState :=
  ⟨[], some ⟨[("k1", ⟨some "k1", some "RS256"⟩)], 100, 300⟩⟩

/-- A concrete non-exempt GET request with a bearer token. -/
def reqLocal : Request := ⟨"GET", "/mcp", "1.2.3.4", some "Bearer abc"⟩

/-- Witness for C1 at a concrete local-strategy request. -/
theorem local_claim_context_iff_all_stages_witness :
    (validate_local witnessOracle cfgLocal stLocal reqLocal 200
        FetchResult.failure).2.2 ≠ none ↔
      StagesPass witnessOracle cfgLocal stLocal reqLocal 200
        FetchResult.failure :=
  (local_claim_context_iff_all_stages witnessOracle cfgLocal stLocal reqLocal
    200 FetchResult.failure (by decide) (by decide) rfl).1

/-! ### String-parsing lemmas for the condition evaluator -/

lemma isPrefixOf_append_self (l t : List Char) :
    l.isPrefixOf (l ++ t) = true :=
  List.isPrefixOf_iff_prefix.mpr ⟨t, rfl⟩

lemma isPrefixOf_false_of_head_ne (c0 x : Char) (s0 xs : List Char)
    (h : x ≠ c0) : (c0 :: s0).isPrefixOf (x :: xs) = false := by
  simp [List.isPrefixOf, Ne.symm h]

lemma dropWhile_eq_self_of (p : Char → Bool) (l : List Char)
    (h : ∀ x ∈ l, p x = false) : l.dropWhile p = l := by
  cases l with
  | nil => rfl
  | cons x xs => simp [List.dropWhile_cons, h x (by simp)]

lemma stripWs_eq_self (l : List Char)
    (h : ∀ x ∈ l, x.isWhitespace = false) : stripWs l = l := by
  unfold stripWs
  rw [dropWhile_eq_self_of _ _ h,
    dropWhile_eq_self_of _ _ (fun x hx => h x (List.mem_reverse.mp hx)),
    List.reverse_reverse]

lemma stripChar_eq_self (c : Char) (l : List Char) (h : c ∉ l) :
    stripChar c l = l := by
  unfold stripChar
  have hb : ∀ x ∈ l, (x == c) = false := by
    intro x hx
    exact beq_eq_false_iff_ne.mpr (fun he => h (he ▸ hx))
  rw [dropWhile_eq_self_of _ _ hb,
    dropWhile_eq_self_of _ _ (fun x hx => hb x (List.mem_reverse.mp hx)),
    List.reverse_reverse]

lemma stripChar_wrap (c : Char) (l : List Char) (h : c ∉ l) :
    stripChar c (c :: (l ++ [c])) = l := by
  unfold stripChar
  have hb : ∀ x ∈ l, (x == c) = false := by
    intro x hx
    exact beq_eq_false_iff_ne.mpr (fun he => h (he ▸ hx))
  rw [List.dropWhile_cons]
  simp only [beq_self_eq_true, if_true]
  cases l with
  | nil => simp
  | cons x xs =>
    rw [List.cons_append, List.dropWhile_cons, hb x (by simp)]
    simp only [Bool.false_eq_true, if_false]
    rw [List.reverse_cons, List.reverse_append]
    simp only [List.reverse_cons, List.reverse_nil, List.nil_append,
      List.singleton_append, List.cons_append]
    rw [List.dropWhile_cons]
    simp only [beq_self_eq_true, if_true]
    rw [dropWhile_eq_self_of _ _ (fun y hy => by
      rcases List.mem_append.mp hy with h1 | h1
      · exact hb _ (by simp [List.mem_reverse.mp h1])
      · simp at h1
        exact hb y (by simp [h1]))]
    simp

lemma rstripChar_pair (c x : Char) (l : List Char) (h : x ≠ c) :
    rstripChar c (l ++ [x, c]) = l ++ [x] := by
  unfold rstripChar
  rw [show l ++ [x, c] = (l ++ [x]) ++ [c] by simp, List.reverse_append]
  simp only [List.reverse_cons, List.reverse_nil, List.nil_append,
    List.singleton_append]
  rw [List.dropWhile_cons]
  simp only [beq_self_eq_true, if_true]
  rw [List.reverse_append]
  simp only [List.reverse_cons, List.reverse_nil, List.nil_append,
    List.singleton_append]
  rw [List.dropWhile_cons, beq_eq_false_iff_ne.mpr h]
  simp

lemma splitFirst_eq_none_of_head_notMem (c0 : Char) (s0 : List Char) :
    ∀ l : List Char, (∀ ch ∈ l, ch ≠ c0) →
    splitFirst (c0 :: s0) l = none
  | [], _ => rfl
  | x :: xs, h => by
    rw [splitFirst, isPrefixOf_false_of_head_ne c0 x s0 xs (h x (by simp))]
    simp only [Bool.false_eq_true, if_false]
    rw [splitFirst_eq_none_of_head_notMem c0 s0 xs
      (fun ch hch => h ch (by simp [hch]))]

lemma splitFirst_at_first (sep b : List Char) :
    ∀ a : List Char, sep ≠ [] →
    (∀ a₁ a₂, a = a₁ ++ a₂ → a₂ ≠ [] →
      sep.isPrefixOf (a₂ ++ (sep ++ b)) = false) →
    splitFirst sep (a ++ sep ++ b) = some (a, b)
  | [], hne, _ => by
    rcases sep with _ | ⟨c0, s0⟩
    · exact absurd rfl hne
    · show splitFirst (c0 :: s0) ([] ++ (c0 :: s0) ++ b) = some ([], b)
      rw [List.nil_append, List.cons_append, splitFirst]
      rw [show c0 :: (s0 ++ b) = (c0 :: s0) ++ b from
        (List.cons_append c0 s0 b).symm]
      rw [isPrefixOf_append_self]
      simp [List.drop_left]
  | x :: a', hne, h => by
    rcases hsep : sep with _ | ⟨c0, s0⟩
    · exact absurd hsep hne
    · subst hsep
      rw [show (x :: a') ++ (c0 :: s0) ++ b =
        x :: (a' ++ ((c0 :: s0) ++ b)) by simp]
      rw [splitFirst]
      have hx : (c0 :: s0).isPrefixOf (x :: (a' ++ ((c0 :: s0) ++ b))) = false := by
        have := h [] (x :: a') rfl (by simp)
        simpa using this
      rw [hx]
      simp only [Bool.false_eq_true, if_false]
      have hrec : splitFirst (c0 :: s0) (a' ++ (c0 :: s0) ++ b) = some (a', b) :=
        splitFirst_at_first (c0 :: s0) b a' (by simp)
          (fun a₁ a₂ he hne2 => h (x :: a₁) a₂ (by simp [he]) hne2)
      rw [show a' ++ ((c0 :: s0) ++ b) = a' ++ (c0 :: s0) ++ b by simp, hrec]

lemma isPrefixOf_append_cases :
    ∀ (p x y : List Char), p.isPrefixOf (x ++ y) = true →
      p.isPrefixOf x = true ∨
      (x.isPrefixOf p = true ∧ (p.drop x.length).isPrefixOf y = true)
  | p, [], y, h => Or.inr ⟨by simp [List.isPrefixOf], by simpa using h⟩
  | [], a :: xs, y, _ => Or.inl (by simp [List.isPrefixOf])
  | q :: ps, a :: xs, y, h => by
    rw [List.cons_append] at h
    simp only [List.isPrefixOf, Bool.and_eq_true, beq_iff_eq] at h
    obtain ⟨rfl, h2⟩ := h
    rcases isPrefixOf_append_cases ps xs y h2 with h3 | ⟨h3, h4⟩
    · exact Or.inl (by simp [List.isPrefixOf, h3])
    · exact Or.inr ⟨by simp [List.isPrefixOf, h3], by simpa using h4⟩

/-- A plain token for the condition-shape lemmas: a claim name, literal or
suffix with no whitespace, quote characters or parentheses. -/
def okTok (s : List Char) : Bool :=
  s.all (fun ch => !(ch.isWhitespace || ch == '"' || ch == '\'' ||
    ch == '(' || ch == ')'))

lemma okTok_facts (s : List Char) (h : okTok s = true) :
    (∀ x ∈ s, x.isWhitespace = false) ∧ '"' ∉ s ∧ '\'' ∉ s ∧
      '(' ∉ s ∧ ')' ∉ s := by
  simp only [okTok, List.all_eq_true, Bool.not_eq_true', Bool.or_eq_false_iff,
    beq_eq_false_iff_ne] at h
  refine ⟨fun x hx => ?_, fun hm => ?_, fun hm => ?_, fun hm => ?_,
    fun hm => ?_⟩
  · obtain ⟨⟨⟨⟨h1, _⟩, _⟩, _⟩, _⟩ := h x hx
    exact h1
  · obtain ⟨⟨⟨⟨_, h2⟩, _⟩, _⟩, _⟩ := h _ hm
    exact h2 rfl
  · obtain ⟨⟨⟨_, h3⟩, _⟩, _⟩ := h _ hm
    exact h3 rfl
  · obtain ⟨⟨_, h4⟩, _⟩ := h _ hm
    exact h4 rfl
  · obtain ⟨_, h5⟩ := h _ hm
    exact h5 rfl

/-- The first occurrence of `" == "` in `a ++ " == " ++ b` is the marked
one whenever `a` contains no space character. -/
lemma no_space_no_early (a b : List Char)
    (ha : ∀ x ∈ a, x.isWhitespace = false) :
    ∀ a₁ a₂, a = a₁ ++ a₂ → a₂ ≠ [] →
      (" == ".data : List Char).isPrefixOf (a₂ ++ (" == ".data ++ b)) = false := by
  intro a₁ a₂ he hne
  rcases a₂ with _ | ⟨x, t⟩
  · exact absurd rfl hne
  · have hx : x ∈ a := by rw [he]; simp
    have hxs : x ≠ ' ' := by
      intro hxe
      have := ha x hx
      rw [hxe] at this
      simp [Char.isWhitespace] at this
    rw [List.cons_append]
    exact isPrefixOf_false_of_head_ne ' ' x ("== ".data) _ hxs

/-- Shape 1 (`payload.<claim> == "<literal>"`): the evaluator extracts the
claim name and the quote-stripped literal and compares the named claim for
string equality. -/
lemma check_condition_shape_eq (payload : Payload) (claim lit : String)
    (hcl : okTok claim.data = true) (hli : okTok lit.data = true) :
    check_condition ("payload." ++ claim ++ " == \"" ++ lit ++ "\"") payload =
      payloadEqStr payload claim.data lit.data := by
  obtain ⟨hclw, hclq, hclq2, _, _⟩ := okTok_facts _ hcl
  obtain ⟨hliw, hliq, hliq2, _, _⟩ := okTok_facts _ hli
  simp only [check_condition]
  have hdata : ("payload." ++ claim ++ " == \"" ++ lit ++ "\"").data =
      (['p','a','y','l','o','a','d','.'] ++ claim.data) ++ [' ','=','=',' '] ++
        ('"' :: (lit.data ++ ['"'])) := by
    simp [String.data_append, List.append_assoc]
  rw [hdata]
  have hamem : ∀ x ∈ (['p','a','y','l','o','a','d','.'] ++ claim.data : List Char),
      x.isWhitespace = false := by
    intro x hx
    rcases List.mem_append.mp hx with h1 | h1
    · have hcon : ∀ y ∈ (['p','a','y','l','o','a','d','.'] : List Char),
          y.isWhitespace = false := by decide
      exact hcon x h1
    · exact hclw x h1
  have hsf := splitFirst_at_first [' ','=','=',' '] ('"' :: (lit.data ++ ['"']))
      (['p','a','y','l','o','a','d','.'] ++ claim.data) (by simp)
      (no_space_no_early _ _ hamem)
  rw [hsf]
  dsimp only
  rw [stripWs_eq_self _ hamem]
  have hvmem : ∀ x ∈ ('"' :: (lit.data ++ ['"']) : List Char),
      x.isWhitespace = false := by
    intro x hx
    rcases List.mem_cons.mp hx with h1 | h1
    · subst h1; decide
    · rcases List.mem_append.mp h1 with h2 | h2
      · exact hliw x h2
      · simp at h2; subst h2; decide
  rw [startsWithL, isPrefixOf_append_self]
  simp only [if_true]
  rw [show (8 : Nat) = (['p','a','y','l','o','a','d','.'] : List Char).length from rfl,
    List.drop_left]
  rw [stripWs_eq_self _ hvmem, stripChar_wrap '"' lit.data hliq,
    stripChar_eq_self '\'' lit.data hliq2]

/-- Shape 2 (the undocumented `payload_['<claim>'] == <literal>` form):
the evaluator also extracts the bracketed claim name and compares for
string equality. -/
lemma check_condition_shape_bracket (payload : Payload) (claim lit : String)
    (hcl : okTok claim.data = true) (hli : okTok lit.data = true) :
    check_condition ("payload_['" ++ claim ++ "'] == " ++ lit) payload =
      payloadEqStr payload claim.data lit.data := by
  obtain ⟨hclw, hclq, hclq2, _, _⟩ := okTok_facts _ hcl
  obtain ⟨hliw, hliq, hliq2, _, _⟩ := okTok_facts _ hli
  simp only [check_condition]
  have hdata : ("payload_['" ++ claim ++ "'] == " ++ lit).data =
      (['p','a','y','l','o','a','d','_','[','\''] ++ claim.data ++ ['\'',']']) ++
        [' ','=','=',' '] ++ lit.data := by
    simp [String.data_append, List.append_assoc]
  rw [hdata]
  have hamem : ∀ x ∈ (['p','a','y','l','o','a','d','_','[','\''] ++ claim.data ++
      ['\'',']'] : List Char), x.isWhitespace = false := by
    intro x hx
    rcases List.mem_append.mp hx with h1 | h1
    · rcases List.mem_append.mp h1 with h2 | h2
      · have hcon : ∀ y ∈ (['p','a','y','l','o','a','d','_','[','\''] : List Char),
            y.isWhitespace = false := by decide
        exact hcon x h2
      · exact hclw x h2
    · have hcon : ∀ y ∈ (['\'',']'] : List Char), y.isWhitespace = false := by decide
      exact hcon x h1
  have hsf := splitFirst_at_first [' ','=','=',' '] lit.data
      (['p','a','y','l','o','a','d','_','[','\''] ++ claim.data ++ ['\'',']'])
      (by simp) (no_space_no_early _ _ hamem)
  rw [hsf]
  dsimp only
  rw [stripWs_eq_self _ hamem]
  have hnotdot : startsWithL ['p','a','y','l','o','a','d','.']
      (['p','a','y','l','o','a','d','_','[','\''] ++ claim.data ++ ['\'',']']) = false := by
    rw [List.append_assoc]
    rfl
  rw [hnotdot]
  simp only [Bool.false_eq_true, if_false]
  have hst : startsWithL ['p','a','y','l','o','a','d','_','[','\'']
      (['p','a','y','l','o','a','d','_','[','\''] ++ claim.data ++ ['\'',']']) = true := by
    rw [List.append_assoc]
    exact isPrefixOf_append_self _ _
  have hend : endsWithL ['\'',']']
      (['p','a','y','l','o','a','d','_','[','\''] ++ claim.data ++ ['\'',']']) = true :=
    List.isSuffixOf_iff_suffix.mpr ⟨_, rfl⟩
  rw [hst, hend]
  simp only [Bool.and_self, if_true]
  rw [List.append_assoc,
    show (10 : Nat) =
      (['p','a','y','l','o','a','d','_','[','\''] : List Char).length from rfl,
    List.drop_left]
  rw [show (claim.data ++ ['\'',']'] : List Char) =
      (claim.data ++ ['\'']) ++ [']'] by simp,
    List.dropLast_concat, List.dropLast_concat]
  rw [stripWs_eq_self _ hliw, stripChar_eq_self '"' _ hliq,
    stripChar_eq_self '\'' _ hliq2]

lemma no_endswith_inside (claim b : List Char) (hpar : '(' ∉ claim) :
    (['e','n','d','s','w','i','t','h','('] : List Char).isPrefixOf
      (claim ++ (['.','e','n','d','s','w','i','t','h','('] ++ b)) = false := by
  by_contra hcon
  rw [Bool.not_eq_false] at hcon
  rcases isPrefixOf_append_cases _ _ _ hcon with h1 | ⟨h1, h2⟩
  · have hsub := ( List.isPrefixOf_iff_prefix.mp h1).subset
    exact hpar (hsub (by decide))
  · have hpre := List.isPrefixOf_iff_prefix.mp h1
    have hlen : claim.length ≤ 9 := by
      have := hpre.length_le
      simpa using this
    by_cases h9 : claim.length = 9
    · have hce : claim = ['e','n','d','s','w','i','t','h','('] :=
        hpre.eq_of_length (by simp [h9])
      exact hpar (by rw [hce]; decide)
    · have hm : claim.length < 9 := by omega
      rcases hd : (['e','n','d','s','w','i','t','h','('] : List Char).drop
          claim.length with _ | ⟨y, ys⟩
      · have := congrArg List.length hd
        simp at this
        omega
      · rw [hd] at h2
        have hy : y = '.' := by
          rw [show (['.','e','n','d','s','w','i','t','h','('] ++ b : List Char) =
            '.' :: (['e','n','d','s','w','i','t','h','('] ++ b) from rfl] at h2
          simp only [List.isPrefixOf, Bool.and_eq_true, beq_iff_eq] at h2
          exact h2.1
        have hfin : ∀ m : Fin 9,
            (((['e','n','d','s','w','i','t','h','('] : List Char).drop
              m.val).head?) ≠ some '.' := by decide
        exact absurd (by rw [hd, hy]; rfl) (hfin ⟨claim.length, hm⟩)

lemma no_early_endswith (claim b : List Char) (hdot : '.' ∉ claim)
    (hpar : '(' ∉ claim) :
    ∀ a₁ a₂, (['p','a','y','l','o','a','d','.'] ++ claim : List Char) = a₁ ++ a₂ →
      a₂ ≠ [] →
      (['.','e','n','d','s','w','i','t','h','('] : List Char).isPrefixOf
        (a₂ ++ (['.','e','n','d','s','w','i','t','h','('] ++ b)) = false := by
  intro a₁ a₂ he hne
  rcases a₂ with _ | ⟨x, t⟩
  · exact absurd rfl hne
  by_cases hx : x = '.'
  · subst hx
    have ht : t = claim := by
      rcases List.append_eq_append_iff.mp he with ⟨a', _, ha2⟩ | ⟨c', hc1, hc2⟩
      · exact absurd (by rw [ha2]; simp : '.' ∈ claim) hdot
      · rcases c' with _ | ⟨y, c''⟩
        · simp only [List.nil_append] at hc2
          exact absurd (hc2 ▸ List.mem_cons_self '.' t) hdot
        · rw [List.cons_append] at hc2
          injection hc2 with hy ht2
          have hc' : (['p','a','y','l','o','a','d','.'] : List Char).drop
              a₁.length = y :: c'' := by
            rw [hc1, List.drop_left]
          have hlen : a₁.length ≤ 8 := by
            have := congrArg List.length hc1
            simp at this
            omega
          have hfin : ∀ m : Fin 9,
              ((['p','a','y','l','o','a','d','.'] : List Char).drop
                m.val).head? = some '.' →
              (['p','a','y','l','o','a','d','.'] : List Char).drop m.val =
                ['.'] := by decide
          have hsingle := hfin ⟨a₁.length, by omega⟩
            (by rw [hc']; simp [← hy])
          rw [hc'] at hsingle
          injection hsingle with _ hnil
          rw [ht2, hnil]
          simp
    rw [ht, List.cons_append, List.isPrefixOf]
    simp only [no_endswith_inside claim b hpar, Bool.and_false]
  · rw [List.cons_append]
    exact isPrefixOf_false_of_head_ne '.' x _ _ hx

lemma check_condition_shape_endswith (payload : Payload) (claim suf : String)
    (hcl : okTok claim.data = true) (hdot : '.' ∉ claim.data)
    (hsu : okTok suf.data = true) :
    check_condition ("payload." ++ claim ++ ".endswith(\"" ++ suf ++ "\")")
        payload =
      payloadEndsStr payload claim.data suf.data := by
  obtain ⟨hclw, hclq, hclq2, hclp, hclp2⟩ := okTok_facts _ hcl
  obtain ⟨hsuw, hsuq, hsuq2, hsup, hsup2⟩ := okTok_facts _ hsu
  simp only [check_condition]
  have hdata : ("payload." ++ claim ++ ".endswith(\"" ++ suf ++ "\")").data =
      (['p','a','y','l','o','a','d','.'] ++ claim.data) ++
        ['.','e','n','d','s','w','i','t','h','('] ++
        ('"' :: (suf.data ++ ['"',')'])) := by
    simp [String.data_append, List.append_assoc]
  rw [hdata]
  have hnosp : ∀ ch ∈ ((['p','a','y','l','o','a','d','.'] ++ claim.data) ++
      ['.','e','n','d','s','w','i','t','h','('] ++
      ('"' :: (suf.data ++ ['"',')'])) : List Char), ch ≠ ' ' := by
    intro ch hch
    have hw : ch.isWhitespace = false := by
      rcases List.mem_append.mp hch with h1 | h1
      · rcases List.mem_append.mp h1 with h2 | h2
        · rcases List.mem_append.mp h2 with h3 | h3
          · have hcon : ∀ y ∈ (['p','a','y','l','o','a','d','.'] : List Char),
                y.isWhitespace = false := by decide
            exact hcon ch h3
          · exact hclw ch h3
        · have hcon : ∀ y ∈ (['.','e','n','d','s','w','i','t','h','('] :
              List Char), y.isWhitespace = false := by decide
          exact hcon ch h2
      · rcases List.mem_cons.mp h1 with h2 | h2
        · subst h2; decide
        · rcases List.mem_append.mp h2 with h3 | h3
          · exact hsuw ch h3
          · have hcon : ∀ y ∈ (['"', ')'] : List Char),
                y.isWhitespace = false := by decide
            exact hcon ch h3
    intro hsp
    rw [hsp] at hw
    exact absurd hw (by decide)
  rw [splitFirst_eq_none_of_head_notMem ' ' ['=','=',' '] _ hnosp]
  have hsf := splitFirst_at_first ['.','e','n','d','s','w','i','t','h','(']
      ('"' :: (suf.data ++ ['"',')']))
      (['p','a','y','l','o','a','d','.'] ++ claim.data)
      (by simp) (no_early_endswith claim.data _ hdot hclp)
  rw [hsf]
  dsimp only
  have hend : endsWithL [')']
      ((['p','a','y','l','o','a','d','.'] ++ claim.data) ++
        ['.','e','n','d','s','w','i','t','h','('] ++
        ('"' :: (suf.data ++ ['"',')']))) = true :=
    List.isSuffixOf_iff_suffix.mpr
      ⟨(['p','a','y','l','o','a','d','.'] ++ claim.data) ++
        ['.','e','n','d','s','w','i','t','h','('] ++
        ('"' :: (suf.data ++ ['"'])), by simp⟩
  rw [hend]
  simp only [if_true]
  rw [startsWithL, isPrefixOf_append_self]
  simp only [if_true]
  rw [show (8 : Nat) = (['p','a','y','l','o','a','d','.'] : List Char).length
      from rfl, List.drop_left]
  rw [show ('"' :: (suf.data ++ ['"',')']) : List Char) =
      ('"' :: suf.data) ++ ['"',')'] by simp]
  rw [rstripChar_pair ')' '"' ('"' :: suf.data) (by decide)]
  rw [show (('"' :: suf.data) ++ ['"'] : List Char) =
      '"' :: (suf.data ++ ['"']) by simp]
  rw [stripChar_wrap '"' suf.data hsuq, stripChar_eq_self '\'' suf.data hsuq2]

/-- The first supported expression shape as the spec states it:
`payload.<claim> == "<literal>"`. -/
def specShapeEq (c : String) : Prop :=
  ∃ claim lit : String, c = "payload." ++ claim ++ " == \"" ++ lit ++ "\""

/-- The second supported expression shape as the spec states it:
`payload.<claim>.endswith("<suffix>")`. -/
def specShapeEndswith (c : String) : Prop :=
  ∃ claim suf : String, c = "payload." ++ claim ++ ".endswith(\"" ++ suf ++ "\")"

/-- C3 counterexample: the expression `payload_['scope'] == admin` matches
neither of the two documented shapes, yet the evaluator returns `true` on
it (a third, bracketed shape is supported), so "every expression not
matching one of these two shapes evaluates to false" fails. -/
theorem check_condition_third_shape :
    check_condition "payload_['scope'] == admin"
        [("scope", JVal.str "admin")] = true ∧
    ¬ specShapeEq "payload_['scope'] == admin" ∧
    ¬ specShapeEndswith "payload_['scope'] == admin" := by
  refine ⟨by decide, ?_, ?_⟩
  · rintro ⟨claim, lit, h⟩
    have hpre : startsWithL ("payload.".data)
        (("payload_['scope'] == admin" : String).data) = true := by
      rw [h]
      simp only [String.data_append, startsWithL, List.append_assoc]
      exact isPrefixOf_append_self _ _
    exact absurd hpre (by decide)
  · rintro ⟨claim, suf, h⟩
    have hpre : startsWithL ("payload.".data)
        (("payload_['scope'] == admin" : String).data) = true := by
      rw [h]
      simp only [String.data_append, startsWithL, List.append_assoc]
      exact isPrefixOf_append_self _ _
    exact absurd hpre (by decide)

/-- C3 amended: the evaluator supports exactly three expression shapes —
`payload.<claim> == "<literal>"`, the undocumented
`payload_['<claim>'] == <literal>`, and
`payload.<claim>.endswith("<suffix>")` — each evaluated against the named
claim (for plain claim names, literals and suffixes); evaluation is a
total function (never raises), any expression containing neither `" == "`
nor `".endswith("` evaluates to false, and the spec's three concrete
examples come out as stated. -/
theorem check_condition_three_shapes :
    (∀ (payload : Payload) (claim lit : String),
      okTok claim.data = true → okTok lit.data = true →
      check_condition ("payload." ++ claim ++ " == \"" ++ lit ++ "\"")
          payload =
        payloadEqStr payload claim.data lit.data) ∧
    (∀ (payload : Payload) (claim lit : String),
      okTok claim.data = true → okTok lit.data = true →
      check_condition ("payload_['" ++ claim ++ "'] == " ++ lit) payload =
        payloadEqStr payload claim.data lit.data) ∧
    (∀ (payload : Payload) (claim suf : String),
      okTok claim.data = true → '.' ∉ claim.data → okTok suf.data = true →
      check_condition ("payload." ++ claim ++ ".endswith(\"" ++ suf ++ "\")")
          payload =
        payloadEndsStr payload claim.data suf.data) ∧
    (∀ (payload : Payload) (c : String),
      splitFirst (" == ".data) c.data = none →
      splitFirst (".endswith(".data) c.data = none →
      check_condition c payload = false) ∧
    check_condition "payload.scope == \"admin\""
        [("scope", JVal.str "admin")] = true ∧
    check_condition "payload.scope == \"admin\""
        [("scope", JVal.str "user")] = false ∧
    (∀ payload : Payload,
      check_condition "garbage !! syntax" payload = false) := by
  refine ⟨fun p claim lit hc hl => check_condition_shape_eq p claim lit hc hl,
    fun p claim lit hc hl => check_condition_shape_bracket p claim lit hc hl,
    fun p claim suf hc hd hs =>
      check_condition_shape_endswith p claim suf hc hd hs,
    ?_, by decide, by decide, fun payload => rfl⟩
  intro payload c h1 h2
  simp only [check_condition, h1, h2]

/-- Witness for C3 amended, at the spec's own examples plus a bracketed
and an `endswith` instance. -/
theorem check_condition_three_shapes_witness :
    okTok ("scope" : String).data = true ∧
    okTok ("admin" : String).data = true ∧
    okTok ("email" : String).data = true ∧
    ('.' ∉ ("email" : String).data) ∧
    okTok ("@corp.com" : String).data = true ∧
    check_condition "payload.scope == \"admin\""
        [("scope", JVal.str "admin")] =
      payloadEqStr [("scope", JVal.str "admin")]
        ("scope" : String).data ("admin" : String).data ∧
    check_condition "payload_['scope'] == admin"
        [("scope", JVal.str "admin")] =
      payloadEqStr [("scope", JVal.str "admin")]
        ("scope" : String).data ("admin" : String).data ∧
    check_condition "payload.email.endswith(\"@corp.com\")"
        [("email", JVal.str "a@corp.com")] =
      payloadEndsStr [("email", JVal.str "a@corp.com")]
        ("email" : String).data ("@corp.com" : String).data ∧
    splitFirst (" == ".data) ("garbage" : String).data = none ∧
    splitFirst (".endswith(".data) ("garbage" : String).data = none ∧
    check_condition "garbage" [] = false :=
  ⟨by decide, by decide, by decide, by decide, by decide,
    check_condition_three_shapes.1 [("scope", JVal.str "admin")] "scope"
      "admin" (by decide) (by decide),
    (check_condition_three_shapes.2.1) [("scope", JVal.str "admin")] "scope"
      "admin" (by decide) (by decide),
    (check_condition_three_shapes.2.2.1) [("email", JVal.str "a@corp.com")]
      "email" "@corp.com" (by decide) (by decide) (by decide),
    by decide, by decide,
    (check_condition_three_shapes.2.2.2.1) [] "garbage" (by decide)
      (by decide)⟩

end McpForge
